import Mathlib

/-
Verification of the pacing-curve / scenario-forecast engine of the Cavs
interactive ticket-sales dashboard (src/cavs_dashboard_interactive.py).

The Python code is shallowly embedded: pandas/numpy number arithmetic is
idealised as exact rational arithmetic (ℚ), Python float special values
(NaN, +inf, -inf) are an explicit inductive type where the code inspects
them, dictionaries are association lists, and dataframes are lists of
records.  Every definition mirrors the corresponding source function.
-/

set_option maxHeartbeats 1000000

namespace Cavs

/-- A Python float as the dashboard sees it: a finite (here: rational)
value, or one of the IEEE special values NaN, +inf, -inf. -/
inductive PyFloat where
  | fin (q : ℚ)
  | nan
  | pinf
  | ninf
deriving DecidableEq

/-- The largest finite IEEE-754 double, 1.7976931348623157e308: the value
numpy substitutes for +inf in nan_to_num when no posinf argument is given. -/
def maxFloat : ℚ := 17976931348623157 * 10 ^ 292

/-- np.nan_to_num with nan=1.0 (the call on line 32 of the source): NaN
becomes 1.0; +inf and -inf become the largest-magnitude finite doubles
(numpy defaults, since the call passes no posinf/neginf). -/
def nan_to_num : PyFloat → ℚ
  | .fin q => q
  | .nan => 1
  | .pinf => maxFloat
  | .ninf => -maxFloat

/-- np.min of a nonempty array (0 for the empty array, which the code
never reaches because of its emptiness guard). -/
def listMin : List ℚ → ℚ
  | [] => 0
  | x :: xs => xs.foldr min x

/-- np.max of a nonempty array. -/
def listMax : List ℚ → ℚ
  | [] => 0
  | x :: xs => xs.foldr max x

/-- `minmax_scale_dict(values_dict, lo, hi)` (source lines 20-40):
empty dict returns empty; NaN values become 1.0 via nan_to_num; if
`vmax - vmin < 1e-12` every key maps to 1.0; otherwise each value is
linearly rescaled by `lo + (v - vmin) * (hi - lo) / (vmax - vmin)`. -/
def minmax_scale_dict (values : List (String × PyFloat)) (lo hi : ℚ) :
    List (String × ℚ) :=
  if values = [] then []
  else
    let vals := values.map fun p => nan_to_num p.2
    let vmin := listMin vals
    let vmax := listMax vals
    if vmax - vmin < 1 / 10 ^ 12 then
      values.map fun p => (p.1, 1)
    else
      values.map fun p =>
        (p.1, lo + (nan_to_num p.2 - vmin) * (hi - lo) / (vmax - vmin))

/-- The cleaning step the spec describes for the Weight Normalizer:
every non-finite ratio (NaN, +inf, -inf) set to 1.0. -/
def replaceNonFinite (values : List (String × PyFloat)) :
    List (String × PyFloat) :=
  values.map fun p =>
    (p.1, match p.2 with
          | .fin q => PyFloat.fin q
          | _ => PyFloat.fin 1)

/-- The cleaning step the code actually performs on the special values,
expressed as a substitution on the inputs: only NaN is set to 1.0. -/
def replaceNaN (values : List (String × PyFloat)) :
    List (String × PyFloat) :=
  values.map fun p =>
    (p.1, match p.2 with
          | .nan => PyFloat.fin 1
          | v => v)

lemma foldr_min_le_seed (xs : List ℚ) (a : ℚ) : xs.foldr min a ≤ a := by
  induction xs with
  | nil => exact le_refl a
  | cons b ys ih => exact le_trans (min_le_right _ _) ih

lemma foldr_min_le_mem (xs : List ℚ) (a : ℚ) {x : ℚ} (hx : x ∈ xs) :
    xs.foldr min a ≤ x := by
  induction xs with
  | nil => cases hx
  | cons b ys ih =>
    rcases List.mem_cons.mp hx with h | h
    · exact h ▸ min_le_left _ _
    · exact le_trans (min_le_right _ _) (ih h)

lemma listMin_le {l : List ℚ} {x : ℚ} (hx : x ∈ l) : listMin l ≤ x := by
  match l with
  | [] => cases hx
  | a :: xs =>
    rcases List.mem_cons.mp hx with h | h
    · exact h ▸ foldr_min_le_seed xs a
    · exact foldr_min_le_mem xs a h

lemma seed_le_foldr_max (xs : List ℚ) (a : ℚ) : a ≤ xs.foldr max a := by
  induction xs with
  | nil => exact le_refl a
  | cons b ys ih => exact le_trans ih (le_max_right _ _)

lemma mem_le_foldr_max (xs : List ℚ) (a : ℚ) {x : ℚ} (hx : x ∈ xs) :
    x ≤ xs.foldr max a := by
  induction xs with
  | nil => cases hx
  | cons b ys ih =>
    rcases List.mem_cons.mp hx with h | h
    · exact h ▸ le_max_left _ _
    · exact le_trans (ih h) (le_max_right _ _)

lemma le_listMax {l : List ℚ} {x : ℚ} (hx : x ∈ l) : x ≤ listMax l := by
  match l with
  | [] => cases hx
  | a :: xs =>
    rcases List.mem_cons.mp hx with h | h
    · exact h ▸ seed_le_foldr_max xs a
    · exact mem_le_foldr_max xs a h

/-- C4: for a non-empty mapping whose cleaned ratios span at least the
epsilon 1e-12, and bounds lo ≤ hi, minmax_scale_dict keeps every input
label, keeps every output value inside [lo, hi], sends every entry whose
cleaned ratio is the minimum to exactly lo, and every entry whose cleaned
ratio is the maximum to exactly hi. -/
theorem minmax_scale_dict_bounds (values : List (String × PyFloat)) (lo hi : ℚ)
    (hne : values ≠ []) (hlohi : lo ≤ hi)
    (hspan : 1 / 10 ^ 12 ≤
      listMax (values.map fun p => nan_to_num p.2) -
      listMin (values.map fun p => nan_to_num p.2)) :
    (minmax_scale_dict values lo hi).map Prod.fst = values.map Prod.fst ∧
    (∀ p ∈ minmax_scale_dict values lo hi, lo ≤ p.2 ∧ p.2 ≤ hi) ∧
    (∀ p ∈ values,
      nan_to_num p.2 = listMin (values.map fun q => nan_to_num q.2) →
      (p.1, lo) ∈ minmax_scale_dict values lo hi) ∧
    (∀ p ∈ values,
      nan_to_num p.2 = listMax (values.map fun q => nan_to_num q.2) →
      (p.1, hi) ∈ minmax_scale_dict values lo hi) := by
  have hpos : (0 : ℚ) < listMax (values.map fun p => nan_to_num p.2) -
      listMin (values.map fun p => nan_to_num p.2) :=
    lt_of_lt_of_le (by norm_num) hspan
  simp only [minmax_scale_dict]
  rw [if_neg hne, if_neg (not_lt.mpr hspan)]
  refine ⟨?_, ?_, ?_, ?_⟩
  · simp [List.map_map, Function.comp]
  · intro p hp
    obtain ⟨a, ha, rfl⟩ := List.mem_map.mp hp
    have h1 : listMin (values.map fun q => nan_to_num q.2) ≤ nan_to_num a.2 :=
      listMin_le (List.mem_map_of_mem _ ha)
    have h2 : nan_to_num a.2 ≤ listMax (values.map fun q => nan_to_num q.2) :=
      le_listMax (List.mem_map_of_mem _ ha)
    constructor
    · have : (0 : ℚ) ≤ (nan_to_num a.2 -
          listMin (values.map fun q => nan_to_num q.2)) * (hi - lo) /
          (listMax (values.map fun q => nan_to_num q.2) -
           listMin (values.map fun q => nan_to_num q.2)) :=
        div_nonneg (mul_nonneg (by linarith) (by linarith)) (le_of_lt hpos)
      simp only
      linarith
    · have hnum : (nan_to_num a.2 -
          listMin (values.map fun q => nan_to_num q.2)) * (hi - lo) ≤
          (listMax (values.map fun q => nan_to_num q.2) -
           listMin (values.map fun q => nan_to_num q.2)) * (hi - lo) :=
        mul_le_mul_of_nonneg_right (by linarith) (by linarith)
      have : (nan_to_num a.2 -
          listMin (values.map fun q => nan_to_num q.2)) * (hi - lo) /
          (listMax (values.map fun q => nan_to_num q.2) -
           listMin (values.map fun q => nan_to_num q.2)) ≤ hi - lo := by
        rw [div_le_iff₀ hpos]
        calc (nan_to_num a.2 -
              listMin (values.map fun q => nan_to_num q.2)) * (hi - lo) ≤
            (listMax (values.map fun q => nan_to_num q.2) -
             listMin (values.map fun q => nan_to_num q.2)) * (hi - lo) := hnum
          _ = (hi - lo) * (listMax (values.map fun q => nan_to_num q.2) -
              listMin (values.map fun q => nan_to_num q.2)) := by ring
      simp only
      linarith
  · intro p hp hmin
    have : (p.1, lo) = (p.1, lo + (nan_to_num p.2 -
        listMin (values.map fun q => nan_to_num q.2)) * (hi - lo) /
        (listMax (values.map fun q => nan_to_num q.2) -
         listMin (values.map fun q => nan_to_num q.2))) := by
      rw [hmin]
      norm_num
    rw [this]
    exact List.mem_map_of_mem _ hp
  · intro p hp hmax
    have : (p.1, hi) = (p.1, lo + (nan_to_num p.2 -
        listMin (values.map fun q => nan_to_num q.2)) * (hi - lo) /
        (listMax (values.map fun q => nan_to_num q.2) -
         listMin (values.map fun q => nan_to_num q.2))) := by
      rw [hmax]
      rw [mul_comm, mul_div_assoc, div_self (ne_of_gt hpos), mul_one]
      norm_num
    rw [this]
    exact List.mem_map_of_mem _ hp

/-- Example mapping for the C4 witness. -/
def exMapW : List (String × PyFloat) := [("a", .fin 2), ("b", .fin 0)]

/-- Witness for C4 at a concrete mapping: the minimum-ratio label b maps
to exactly lo = 3/4 and the maximum-ratio label a to exactly hi = 5/4. -/
theorem minmax_scale_dict_bounds_witness :
    ("b", (3 : ℚ)/4) ∈ minmax_scale_dict exMapW (3/4) (5/4) ∧
    ("a", (5 : ℚ)/4) ∈ minmax_scale_dict exMapW (3/4) (5/4) :=
  ⟨(minmax_scale_dict_bounds exMapW (3/4) (5/4) (by simp [exMapW]) (by norm_num)
      (by norm_num [exMapW, listMax, listMin, nan_to_num, max_def, min_def])).2.2.1
      ("b", .fin 0) (by simp [exMapW])
      (by norm_num [exMapW, listMax, listMin, nan_to_num, max_def, min_def]),
   (minmax_scale_dict_bounds exMapW (3/4) (5/4) (by simp [exMapW]) (by norm_num)
      (by norm_num [exMapW, listMax, listMin, nan_to_num, max_def, min_def])).2.2.2
      ("a", .fin 2) (by simp [exMapW])
      (by norm_num [exMapW, listMax, listMin, nan_to_num, max_def, min_def])⟩

/-- A mapping containing a non-finite (+inf) ratio, on which the code and
the claimed NaN-and-infinity cleaning disagree. -/
def nonFiniteEx : List (String × PyFloat) :=
  [("a", .pinf), ("b", .fin 0), ("c", .fin 1)]

/-- C5 counterexample: scaling a mapping that contains +inf is NOT the
same as scaling it with that ratio set to 1.0 — nan_to_num turns +inf
into 1.7976931348623157e308, not 1.0, so label c scales to essentially lo
rather than to hi. -/
theorem minmax_scale_dict_inf_cex :
    minmax_scale_dict nonFiniteEx (3/4) (5/4) ≠
    minmax_scale_dict (replaceNonFinite nonFiniteEx) (3/4) (5/4) := by
  have h1 : minmax_scale_dict nonFiniteEx (3/4) (5/4) =
      [("a", 3/4 + (maxFloat - 0) * (5/4 - 3/4) / (maxFloat - 0)),
       ("b", 3/4 + (0 - 0) * (5/4 - 3/4) / (maxFloat - 0)),
       ("c", 3/4 + (1 - 0) * (5/4 - 3/4) / (maxFloat - 0))] := by
    simp only [minmax_scale_dict, nonFiniteEx, List.map_cons, List.map_nil,
      nan_to_num, listMax, listMin, List.foldr_cons, List.foldr_nil]
    rw [if_neg (by simp)]
    have hmax : max 0 (max 1 maxFloat) = maxFloat := by
      rw [max_eq_right (by norm_num [maxFloat]), max_eq_right (by norm_num [maxFloat])]
    have hmin : min 0 (min 1 maxFloat) = 0 := by
      rw [min_eq_left (le_min (by norm_num) (by norm_num [maxFloat]))]
    rw [hmax, hmin, if_neg (by norm_num [maxFloat])]
  have h2 : minmax_scale_dict (replaceNonFinite nonFiniteEx) (3/4) (5/4) =
      [("a", 3/4 + (1 - 0) * (5/4 - 3/4) / (1 - 0)),
       ("b", 3/4 + (0 - 0) * (5/4 - 3/4) / (1 - 0)),
       ("c", 3/4 + (1 - 0) * (5/4 - 3/4) / (1 - 0))] := by
    simp only [minmax_scale_dict, replaceNonFinite, nonFiniteEx, List.map_cons,
      List.map_nil, nan_to_num, listMax, listMin, List.foldr_cons, List.foldr_nil]
    rw [if_neg (by simp)]
    have hmax : max 0 (max 1 1) = (1 : ℚ) := by norm_num
    have hmin : min 0 (min 1 1) = (0 : ℚ) := by norm_num
    rw [hmax, hmin, if_neg (by norm_num)]
  rw [h1, h2]
  intro h
  have hc := List.getElem_of_eq h (by simp : 2 < 3)
  simp only [List.getElem_cons_succ, List.getElem_cons_zero, Prod.mk.injEq] at hc
  have hlt : 3/4 + (1 - 0) * (5/4 - 3/4) / (maxFloat - 0) < 5/4 := by
    have : (1 - 0 : ℚ) * (5/4 - 3/4) / (maxFloat - 0) < 1/2 := by
      rw [div_lt_iff₀ (by norm_num [maxFloat])]
      norm_num [maxFloat]
    linarith
  rw [hc.2] at hlt
  norm_num at hlt

/-- Applying minmax_scale_dict after any per-entry substitution that
preserves labels and nan_to_num images gives the same result. -/
lemma minmax_scale_dict_map_eq (g : String × PyFloat → String × PyFloat)
    (hfst : ∀ p, (g p).1 = p.1)
    (hval : ∀ p, nan_to_num (g p).2 = nan_to_num p.2)
    (values : List (String × PyFloat)) (lo hi : ℚ) :
    minmax_scale_dict (values.map g) lo hi =
    minmax_scale_dict values lo hi := by
  cases values with
  | nil => rfl
  | cons a l =>
    have hvals : ((a :: l).map g).map (fun p => nan_to_num p.2) =
        (a :: l).map (fun p => nan_to_num p.2) := by
      rw [List.map_map]
      exact List.map_congr_left fun p _ => hval p
    simp only [minmax_scale_dict]
    rw [if_neg (show ¬(a :: l).map g = [] by simp),
      if_neg (show ¬a :: l = [] by simp), hvals]
    by_cases hc : listMax ((a :: l).map fun p => nan_to_num p.2) -
        listMin ((a :: l).map fun p => nan_to_num p.2) < 1 / 10 ^ 12
    · rw [if_pos hc, if_pos hc, List.map_map]
      exact List.map_congr_left fun p _ => by
        simp only [Function.comp_apply, hfst p]
    · rw [if_neg hc, if_neg hc, List.map_map]
      exact List.map_congr_left fun p _ => by
        simp only [Function.comp_apply, hfst p, hval p]

/-- C5 amended: the code replaces exactly the NaN ratios with 1.0 before
scaling (infinities are instead replaced with the largest finite doubles),
so scaling any mapping gives the same result as scaling the mapping with
its NaN entries set to 1.0. -/
theorem minmax_scale_dict_nan_neutral (values : List (String × PyFloat))
    (lo hi : ℚ) :
    minmax_scale_dict (replaceNaN values) lo hi =
    minmax_scale_dict values lo hi :=
  minmax_scale_dict_map_eq
    (fun p => (p.1, match p.2 with | .nan => PyFloat.fin 1 | v => v))
    (fun _ => rfl)
    (fun p => by obtain ⟨k, v⟩ := p; cases v <;> rfl) values lo hi

/-- np.clip(x, lo, hi). -/
def clip (x lo hi : ℚ) : ℚ := min (max x lo) hi

/-- `scenario_cum_share` (source lines 42-64): normalized components
clipped to [0,1], blended with weights 0.40/0.20/0.15/0.15/0.05/0.05,
result clipped to [0.02, 0.999]. -/
def scenario_cum_share (day txns avg_tix tier_w give_w dow_w : ℚ) : ℚ :=
  let norm_day := clip (day / 240) 0 1
  let norm_txns := clip (txns / 1000) 0 1
  let norm_avg := clip (avg_tix / 6) 0 1
  let norm_tier := clip ((tier_w - 3/4) / (1/2)) 0 1
  let norm_give := clip ((give_w - 3/4) / (1/2)) 0 1
  let norm_dow := clip ((dow_w - 3/4) / (1/2)) 0 1
  let momentum := 2/5 * norm_day + 1/5 * norm_txns + 3/20 * norm_avg +
    3/20 * norm_tier + 1/20 * norm_give + 1/20 * norm_dow
  clip momentum (1/50) (999/1000)

/-- `pace_adjustment = 0.70 + 0.60 * pace_med` (source line 309). -/
def pace_adjustment (pace_med : ℚ) : ℚ := 7/10 + 3/5 * pace_med

/-- `forecast_tickets = base_forecast * multipliers * pace_adjustment`
(source lines 307-311). -/
def forecast_tickets (txns avg_tix tier_w give_w dow_w pace_med : ℚ) : ℚ :=
  (txns * avg_tix) * (tier_w * give_w * dow_w) * pace_adjustment pace_med

/-- np.interp over a list of (x, y) points with strictly increasing x,
with left/right defaults equal to the first/last y value, exactly as the
dashboard calls it (source lines 298-304, 375-389). -/
def np_interp (x : ℚ) : List (ℚ × ℚ) → ℚ
  | [] => 0
  | [(_, y1)] => y1
  | (x1, y1) :: (x2, y2) :: rest =>
    if x ≤ x1 then y1
    else if x ≤ x2 then y1 + (y2 - y1) * (x - x1) / (x2 - x1)
    else np_interp x ((x2, y2) :: rest)

/-- The status classification (source lines 392-397). -/
def classify_status (scenario_share p25_at_day p75_at_day : ℚ) : String :=
  if scenario_share < p25_at_day then "Below P25 (Danger)"
  else if scenario_share < p75_at_day then "Between P25 and P75 (On Pace)"
  else "Above P75 (Strong)"

lemma clip_mono {x y : ℚ} (lo hi : ℚ) (h : x ≤ y) :
    clip x lo hi ≤ clip y lo hi :=
  min_le_min (max_le_max h (le_refl lo)) (le_refl hi)

/-- The weighted blend is monotone in each normalized component. -/
lemma scenario_blend_mono {a a' b b' c c' d d' e e' f f' : ℚ}
    (ha : a ≤ a') (hb : b ≤ b') (hc : c ≤ c') (hd : d ≤ d') (he : e ≤ e')
    (hf : f ≤ f') :
    clip (2/5 * a + 1/5 * b + 3/20 * c + 3/20 * d + 1/20 * e + 1/20 * f)
      (1/50) (999/1000) ≤
    clip (2/5 * a' + 1/5 * b' + 3/20 * c' + 3/20 * d' + 1/20 * e' + 1/20 * f')
      (1/50) (999/1000) :=
  clip_mono _ _ (by linarith)

lemma getLastD_cons_cons (a b : ℚ × ℚ) (l : List (ℚ × ℚ)) (d : ℚ × ℚ) :
    (a :: b :: l).getLastD d = (b :: l).getLastD d := by
  rw [List.getLastD_eq_getLast?, List.getLastD_eq_getLast?,
    List.getLast?_cons_cons]

lemma fst_head_le_getLastD :
    ∀ (p : ℚ × ℚ) (l : List (ℚ × ℚ)),
      List.Chain' (fun a b : ℚ × ℚ => a.1 < b.1) (p :: l) →
      p.1 ≤ ((p :: l).getLastD (0, 0)).1
  | _, [], _ => le_refl _
  | p, q :: r, h => by
    obtain ⟨hpq, h'⟩ := List.chain'_cons.mp h
    have := fst_head_le_getLastD q r h'
    rw [getLastD_cons_cons]
    linarith

lemma np_interp_ge_head :
    ∀ (pts : List (ℚ × ℚ)),
      List.Chain' (fun a b : ℚ × ℚ => a.1 < b.1) pts →
      List.Chain' (fun a b : ℚ × ℚ => a.2 ≤ b.2) pts →
      ∀ x : ℚ, (pts.headD (0, 0)).2 ≤ np_interp x pts
  | [], _, _, _ => by simp [np_interp]
  | [(x1, y1)], _, _, x => by simp [np_interp]
  | (x1, y1) :: (x2, y2) :: rest, hlt, hle, x => by
    obtain ⟨h12, hlt'⟩ := List.chain'_cons.mp hlt
    obtain ⟨hy12, hle'⟩ := List.chain'_cons.mp hle
    simp only [List.headD_cons]
    simp only [np_interp]
    by_cases h1 : x ≤ x1
    · rw [if_pos h1]
    · rw [if_neg h1]
      push_neg at h1
      by_cases h2 : x ≤ x2
      · rw [if_pos h2]
        have : (0 : ℚ) ≤ (y2 - y1) * (x - x1) / (x2 - x1) :=
          div_nonneg (mul_nonneg (by linarith) (by linarith)) (by linarith)
        linarith
      · rw [if_neg h2]
        have ih := np_interp_ge_head ((x2, y2) :: rest) hlt' hle' x
        simp only [List.headD_cons] at ih
        linarith

lemma np_interp_mono :
    ∀ (pts : List (ℚ × ℚ)),
      List.Chain' (fun a b : ℚ × ℚ => a.1 < b.1) pts →
      List.Chain' (fun a b : ℚ × ℚ => a.2 ≤ b.2) pts →
      ∀ x x' : ℚ, x ≤ x' → np_interp x pts ≤ np_interp x' pts
  | [], _, _, _, _, _ => le_refl _
  | [(x1, y1)], _, _, x, x', _ => le_refl _
  | (x1, y1) :: (x2, y2) :: rest, hlt, hle, x, x', hxx => by
    obtain ⟨h12, hlt'⟩ := List.chain'_cons.mp hlt
    obtain ⟨hy12, hle'⟩ := List.chain'_cons.mp hle
    by_cases h1 : x ≤ x1
    · have hL : np_interp x ((x1, y1) :: (x2, y2) :: rest) = y1 := by
        simp only [np_interp]
        rw [if_pos h1]
      rw [hL]
      have := np_interp_ge_head ((x1, y1) :: (x2, y2) :: rest) hlt hle x'
      simpa using this
    · push_neg at h1
      have h1' : ¬x' ≤ x1 := by push_neg; linarith
      by_cases h2 : x ≤ x2
      · by_cases h2' : x' ≤ x2
        · simp only [np_interp]
          rw [if_neg (not_le.mpr h1), if_pos h2, if_neg h1', if_pos h2']
          have hden : (0 : ℚ) < x2 - x1 := by linarith
          have hmul : (y2 - y1) * (x - x1) ≤ (y2 - y1) * (x' - x1) :=
            mul_le_mul_of_nonneg_left (by linarith) (by linarith)
          have := div_le_div_of_nonneg_right hmul (le_of_lt hden)
          linarith
        · push_neg at h2'
          simp only [np_interp]
          rw [if_neg (not_le.mpr h1), if_pos h2, if_neg h1',
            if_neg (not_le.mpr h2')]
          have hden : (0 : ℚ) < x2 - x1 := by linarith
          have hub : y1 + (y2 - y1) * (x - x1) / (x2 - x1) ≤ y2 := by
            have hr : (x - x1) / (x2 - x1) ≤ 1 := by
              rw [div_le_one hden]
              linarith
            have : (y2 - y1) * (x - x1) / (x2 - x1) ≤ y2 - y1 := by
              rw [mul_div_assoc]
              calc (y2 - y1) * ((x - x1) / (x2 - x1)) ≤ (y2 - y1) * 1 :=
                    mul_le_mul_of_nonneg_left hr (by linarith)
                _ = y2 - y1 := mul_one _
            linarith
          have hlb := np_interp_ge_head ((x2, y2) :: rest) hlt' hle' x'
          simp only [List.headD_cons] at hlb
          linarith
      · push_neg at h2
        have h2'' : ¬x' ≤ x2 := by push_neg; linarith
        simp only [np_interp]
        rw [if_neg (not_le.mpr h1), if_neg (not_le.mpr h2), if_neg h1',
          if_neg h2'']
        exact np_interp_mono ((x2, y2) :: rest) hlt' hle' x x' hxx

lemma fst_head_le_getD :
    ∀ (p : ℚ × ℚ) (l : List (ℚ × ℚ)),
      List.Chain' (fun a b : ℚ × ℚ => a.1 < b.1) (p :: l) →
      ∀ k : ℕ, k < (p :: l).length → p.1 ≤ ((p :: l).getD k (0, 0)).1
  | p, l, _, 0, _ => by simp [List.getD_cons_zero]
  | p, [], _, k + 1, hk => by simp at hk
  | p, q :: r, h, k + 1, hk => by
    obtain ⟨hpq, h'⟩ := List.chain'_cons.mp h
    have := fst_head_le_getD q r h' k (by simpa using Nat.lt_of_succ_lt_succ hk)
    rw [List.getD_cons_succ]
    linarith

lemma fst_head_lt_getD_succ (p : ℚ × ℚ) (l : List (ℚ × ℚ))
    (h : List.Chain' (fun a b : ℚ × ℚ => a.1 < b.1) (p :: l)) (k : ℕ)
    (hk : k + 1 < (p :: l).length) :
    p.1 < ((p :: l).getD (k + 1) (0, 0)).1 := by
  match l with
  | [] => simp at hk
  | q :: r =>
    obtain ⟨hpq, h'⟩ := List.chain'_cons.mp h
    have := fst_head_le_getD q r h' k (by simpa using Nat.lt_of_succ_lt_succ hk)
    rw [List.getD_cons_succ]
    linarith

lemma np_interp_below (pts : List (ℚ × ℚ)) (hne : pts ≠ []) (x : ℚ)
    (hx : x ≤ (pts.headD (0, 0)).1) :
    np_interp x pts = (pts.headD (0, 0)).2 := by
  match pts with
  | [] => exact absurd rfl hne
  | [(x1, y1)] => simp [np_interp]
  | (x1, y1) :: (x2, y2) :: rest =>
    simp only [List.headD_cons] at hx ⊢
    simp only [np_interp]
    rw [if_pos hx]

lemma np_interp_above :
    ∀ (pts : List (ℚ × ℚ)),
      List.Chain' (fun a b : ℚ × ℚ => a.1 < b.1) pts →
      ∀ x : ℚ, (pts.getLastD (0, 0)).1 < x →
      np_interp x pts = (pts.getLastD (0, 0)).2
  | [], _, x, _ => rfl
  | [(x1, y1)], _, x, _ => rfl
  | (x1, y1) :: (x2, y2) :: rest, hlt, x, hx => by
    obtain ⟨h12, hlt'⟩ := List.chain'_cons.mp hlt
    rw [getLastD_cons_cons] at hx ⊢
    have hlast2 : x2 ≤ (((x2, y2) :: rest).getLastD (0, 0)).1 :=
      fst_head_le_getLastD _ _ hlt'
    have hx2 : x2 < x := lt_of_le_of_lt hlast2 hx
    simp only [np_interp]
    rw [if_neg (by push_neg; linarith), if_neg (not_le.mpr hx2)]
    exact np_interp_above ((x2, y2) :: rest) hlt' x hx

lemma np_interp_bracket :
    ∀ (pts : List (ℚ × ℚ)),
      List.Chain' (fun a b : ℚ × ℚ => a.1 < b.1) pts →
      ∀ (i : ℕ) (x : ℚ), i + 1 < pts.length →
      (pts.getD i (0, 0)).1 ≤ x → x ≤ (pts.getD (i + 1) (0, 0)).1 →
      np_interp x pts = (pts.getD i (0, 0)).2 +
        ((pts.getD (i + 1) (0, 0)).2 - (pts.getD i (0, 0)).2) *
          (x - (pts.getD i (0, 0)).1) /
          ((pts.getD (i + 1) (0, 0)).1 - (pts.getD i (0, 0)).1)
  | [], _, i, x, hlen, _, _ => by simp at hlen
  | [p], _, i, x, hlen, _, _ => by
    simp only [List.length_singleton] at hlen
    omega
  | (x1, y1) :: (x2, y2) :: rest, hlt, i, x, hlen, hxl, hxr => by
    obtain ⟨h12, hlt'⟩ := List.chain'_cons.mp hlt
    match i with
    | 0 =>
      simp only [List.getD_cons_zero, List.getD_cons_succ] at hxl hxr ⊢
      by_cases h1 : x ≤ x1
      · have hx1 : x = x1 := le_antisymm h1 hxl
        simp only [np_interp]
        rw [if_pos h1, hx1, sub_self, mul_zero, zero_div, add_zero]
      · push_neg at h1
        simp only [np_interp]
        rw [if_neg (not_le.mpr h1), if_pos hxr]
    | k + 1 =>
      simp only [List.getD_cons_succ] at hxl hxr ⊢
      have hklen : k + 1 < ((x2, y2) :: rest).length := by
        simp only [List.length_cons] at hlen ⊢
        omega
      by_cases h2 : x ≤ x2
      · match k with
        | 0 =>
          simp only [List.getD_cons_zero, List.getD_cons_succ] at hxl hxr ⊢
          have hxeq : x = x2 := le_antisymm h2 hxl
          have h1x : x1 < x := by linarith
          simp only [np_interp]
          rw [if_neg (not_le.mpr h1x), if_pos h2, hxeq, sub_self, mul_zero,
            zero_div, add_zero, mul_div_assoc,
            div_self (ne_of_gt (by linarith : (0 : ℚ) < x2 - x1)), mul_one]
          ring
        | k' + 1 =>
          have := fst_head_lt_getD_succ (x2, y2) rest hlt' k' (by omega)
          simp only at this
          linarith
      · push_neg at h2
        simp only [np_interp]
        rw [if_neg (not_le.mpr (lt_trans h12 h2)), if_neg (not_le.mpr h2)]
        exact np_interp_bracket ((x2, y2) :: rest) hlt' k x hklen hxl hxr

/-- C9: for a non-empty pacing curve with strictly increasing days, a
lookup below the first day returns the first value, above the last day
returns the last value, and between two bracketing days returns the
linear interpolation between those two points. -/
theorem np_interp_clamp_and_bracket (pts : List (ℚ × ℚ))
    (hchain : List.Chain' (fun a b : ℚ × ℚ => a.1 < b.1) pts)
    (hne : pts ≠ []) :
    (∀ x : ℚ, x < (pts.headD (0, 0)).1 →
      np_interp x pts = (pts.headD (0, 0)).2) ∧
    (∀ x : ℚ, (pts.getLastD (0, 0)).1 < x →
      np_interp x pts = (pts.getLastD (0, 0)).2) ∧
    (∀ (i : ℕ) (x : ℚ), i + 1 < pts.length →
      (pts.getD i (0, 0)).1 ≤ x → x ≤ (pts.getD (i + 1) (0, 0)).1 →
      np_interp x pts = (pts.getD i (0, 0)).2 +
        ((pts.getD (i + 1) (0, 0)).2 - (pts.getD i (0, 0)).2) *
          (x - (pts.getD i (0, 0)).1) /
          ((pts.getD (i + 1) (0, 0)).1 - (pts.getD i (0, 0)).1)) :=
  ⟨fun x hx => np_interp_below pts hne x (le_of_lt hx),
   fun x hx => np_interp_above pts hchain x hx,
   fun i x hlen hxl hxr => np_interp_bracket pts hchain i x hlen hxl hxr⟩

/-- Witness for C9 on the concrete two-point curve [(10, 1/4), (30, 3/4)]:
lookups at day 0 clamp to 1/4, at day 100 clamp to 3/4, and at day 20
interpolate to 1/2. -/
theorem np_interp_clamp_and_bracket_witness :
    np_interp 0 [((10 : ℚ), (1 : ℚ)/4), (30, 3/4)] = 1/4 ∧
    np_interp 100 [((10 : ℚ), (1 : ℚ)/4), (30, 3/4)] = 3/4 ∧
    np_interp 20 [((10 : ℚ), (1 : ℚ)/4), (30, 3/4)] =
      1/4 + (3/4 - 1/4) * (20 - 10) / (30 - 10) := by
  have h := np_interp_clamp_and_bracket [((10 : ℚ), (1 : ℚ)/4), (30, 3/4)]
    (by norm_num [List.chain'_cons]) (by simp)
  refine ⟨?_, ?_, ?_⟩
  · have := h.1 0 (by norm_num)
    simpa using this
  · have := h.2.1 100 (by norm_num [List.getLastD_eq_getLast?])
    simpa [List.getLastD_eq_getLast?] using this
  · have := h.2.2 0 20 (by norm_num) (by norm_num [List.getD_cons_zero])
      (by norm_num [List.getD_cons_succ, List.getD_cons_zero])
    simpa [List.getD_cons_succ, List.getD_cons_zero] using this

/-- C2: against any band with P25 < P75 the classifier sends scores below
P25 to "Danger", P25 itself and everything in [P25, P75) to "On Pace",
and P75 itself and everything above to "Strong" — half-open [P25, P75)
semantics with boundary ties resolving to the higher band. -/
theorem classify_status_boundary (p25 p75 : ℚ) (h : p25 < p75) :
    (∀ s, s < p25 → classify_status s p25 p75 = "Below P25 (Danger)") ∧
    classify_status p25 p25 p75 = "Between P25 and P75 (On Pace)" ∧
    (∀ s, p25 ≤ s → s < p75 →
      classify_status s p25 p75 = "Between P25 and P75 (On Pace)") ∧
    classify_status p75 p25 p75 = "Above P75 (Strong)" ∧
    (∀ s, p75 ≤ s → classify_status s p25 p75 = "Above P75 (Strong)") := by
  refine ⟨fun s hs => ?_, ?_, fun s h1 h2 => ?_, ?_, fun s hs => ?_⟩
  · simp only [classify_status]
    rw [if_pos hs]
  · simp only [classify_status]
    rw [if_neg (lt_irrefl p25), if_pos h]
  · simp only [classify_status]
    rw [if_neg (not_lt.mpr h1), if_pos h2]
  · simp only [classify_status]
    rw [if_neg (not_lt.mpr (le_of_lt h)), if_neg (lt_irrefl p75)]
  · simp only [classify_status]
    rw [if_neg (not_lt.mpr (by linarith : p25 ≤ s)), if_neg (not_lt.mpr hs)]

/-- Witness for C2 at the band P25 = 1/4, P75 = 3/4. -/
theorem classify_status_boundary_witness :
    classify_status (1/4) (1/4) (3/4) = "Between P25 and P75 (On Pace)" ∧
    classify_status (3/4) (1/4) (3/4) = "Above P75 (Strong)" ∧
    classify_status (1/8) (1/4) (3/4) = "Below P25 (Danger)" :=
  ⟨(classify_status_boundary (1/4) (3/4) (by norm_num)).2.1,
   (classify_status_boundary (1/4) (3/4) (by norm_num)).2.2.2.1,
   (classify_status_boundary (1/4) (3/4) (by norm_num)).1 (1/8) (by norm_num)⟩

/-- C3: the momentum score is monotonically non-decreasing in each of its
six inputs; the ticket-count forecast is non-decreasing in transactions
when the other factors are non-negative; and the pace-adjustment factor
0.70 + 0.60 * interpolated-median is non-decreasing in the target day for
any curve with strictly increasing days and non-decreasing medians. -/
theorem scorer_monotonicity :
    (∀ day day' txns avg_tix tier_w give_w dow_w : ℚ, day ≤ day' →
      scenario_cum_share day txns avg_tix tier_w give_w dow_w ≤
      scenario_cum_share day' txns avg_tix tier_w give_w dow_w) ∧
    (∀ day txns txns' avg_tix tier_w give_w dow_w : ℚ, txns ≤ txns' →
      scenario_cum_share day txns avg_tix tier_w give_w dow_w ≤
      scenario_cum_share day txns' avg_tix tier_w give_w dow_w) ∧
    (∀ day txns avg_tix avg_tix' tier_w give_w dow_w : ℚ, avg_tix ≤ avg_tix' →
      scenario_cum_share day txns avg_tix tier_w give_w dow_w ≤
      scenario_cum_share day txns avg_tix' tier_w give_w dow_w) ∧
    (∀ day txns avg_tix tier_w tier_w' give_w dow_w : ℚ, tier_w ≤ tier_w' →
      scenario_cum_share day txns avg_tix tier_w give_w dow_w ≤
      scenario_cum_share day txns avg_tix tier_w' give_w dow_w) ∧
    (∀ day txns avg_tix tier_w give_w give_w' dow_w : ℚ, give_w ≤ give_w' →
      scenario_cum_share day txns avg_tix tier_w give_w dow_w ≤
      scenario_cum_share day txns avg_tix tier_w give_w' dow_w) ∧
    (∀ day txns avg_tix tier_w give_w dow_w dow_w' : ℚ, dow_w ≤ dow_w' →
      scenario_cum_share day txns avg_tix tier_w give_w dow_w ≤
      scenario_cum_share day txns avg_tix tier_w give_w dow_w') ∧
    (∀ txns txns' avg_tix tier_w give_w dow_w pm : ℚ,
      0 ≤ avg_tix → 0 ≤ tier_w → 0 ≤ give_w → 0 ≤ dow_w → 0 ≤ pm →
      txns ≤ txns' →
      forecast_tickets txns avg_tix tier_w give_w dow_w pm ≤
      forecast_tickets txns' avg_tix tier_w give_w dow_w pm) ∧
    (∀ (pts : List (ℚ × ℚ)) (d d' : ℚ),
      List.Chain' (fun a b : ℚ × ℚ => a.1 < b.1) pts →
      List.Chain' (fun a b : ℚ × ℚ => a.2 ≤ b.2) pts → d ≤ d' →
      pace_adjustment (np_interp d pts) ≤
      pace_adjustment (np_interp d' pts)) := by
  refine ⟨?_, ?_, ?_, ?_, ?_, ?_, ?_, ?_⟩
  · intro day day' txns avg_tix tier_w give_w dow_w h
    simp only [scenario_cum_share]
    exact scenario_blend_mono (clip_mono _ _ (by linarith)) (le_refl _)
      (le_refl _) (le_refl _) (le_refl _) (le_refl _)
  · intro day txns txns' avg_tix tier_w give_w dow_w h
    simp only [scenario_cum_share]
    exact scenario_blend_mono (le_refl _) (clip_mono _ _ (by linarith))
      (le_refl _) (le_refl _) (le_refl _) (le_refl _)
  · intro day txns avg_tix avg_tix' tier_w give_w dow_w h
    simp only [scenario_cum_share]
    exact scenario_blend_mono (le_refl _) (le_refl _)
      (clip_mono _ _ (by linarith)) (le_refl _) (le_refl _) (le_refl _)
  · intro day txns avg_tix tier_w tier_w' give_w dow_w h
    simp only [scenario_cum_share]
    exact scenario_blend_mono (le_refl _) (le_refl _) (le_refl _)
      (clip_mono _ _ (by linarith)) (le_refl _) (le_refl _)
  · intro day txns avg_tix tier_w give_w give_w' dow_w h
    simp only [scenario_cum_share]
    exact scenario_blend_mono (le_refl _) (le_refl _) (le_refl _)
      (le_refl _) (clip_mono _ _ (by linarith)) (le_refl _)
  · intro day txns avg_tix tier_w give_w dow_w dow_w' h
    simp only [scenario_cum_share]
    exact scenario_blend_mono (le_refl _) (le_refl _) (le_refl _)
      (le_refl _) (le_refl _) (clip_mono _ _ (by linarith))
  · intro txns txns' avg_tix tier_w give_w dow_w pm havg htw hgw hdw hpm h
    simp only [forecast_tickets, pace_adjustment]
    have hA : (0 : ℚ) ≤ avg_tix * (tier_w * give_w * dow_w) *
        (7/10 + 3/5 * pm) :=
      mul_nonneg (mul_nonneg havg (mul_nonneg (mul_nonneg htw hgw) hdw))
        (by linarith)
    calc txns * avg_tix * (tier_w * give_w * dow_w) * (7/10 + 3/5 * pm)
        = txns * (avg_tix * (tier_w * give_w * dow_w) *
          (7/10 + 3/5 * pm)) := by ring
      _ ≤ txns' * (avg_tix * (tier_w * give_w * dow_w) *
          (7/10 + 3/5 * pm)) := mul_le_mul_of_nonneg_right h hA
      _ = txns' * avg_tix * (tier_w * give_w * dow_w) *
          (7/10 + 3/5 * pm) := by ring
  · intro pts d d' h1 h2 hd
    have := np_interp_mono pts h1 h2 d d' hd
    simp only [pace_adjustment]
    linarith

/-- Witness for C3 at concrete scenario inputs and a concrete curve. -/
theorem scorer_monotonicity_witness :
    scenario_cum_share 60 400 3 1 1 1 ≤ scenario_cum_share 80 400 3 1 1 1 ∧
    forecast_tickets 400 3 1 1 1 (1/2) ≤ forecast_tickets 500 3 1 1 1 (1/2) ∧
    pace_adjustment (np_interp 10 [((10 : ℚ), (1 : ℚ)/4), (30, 3/4)]) ≤
      pace_adjustment (np_interp 20 [((10 : ℚ), (1 : ℚ)/4), (30, 3/4)]) :=
  ⟨scorer_monotonicity.1 60 80 400 3 1 1 1 (by norm_num),
   scorer_monotonicity.2.2.2.2.2.2.1 400 500 3 1 1 1 (1/2) (by norm_num)
     (by norm_num) (by norm_num) (by norm_num) (by norm_num) (by norm_num),
   scorer_monotonicity.2.2.2.2.2.2.2 [((10 : ℚ), (1 : ℚ)/4), (30, 3/4)] 10 20
     (by norm_num [List.chain'_cons]) (by norm_num [List.chain'_cons])
     (by norm_num)⟩

/-- One raw CSV row as read by pandas: the two required numeric columns
after to_numeric(errors="coerce") (none = NaN, i.e. missing or
unparseable), the event name, and the optional categorical cells
(none = NaN). -/
structure RawRow where
  event : String
  days : Option ℚ
  daily : Option ℚ
  tier : Option String
  giveaway : Option String
  day_of_sale : Option String
deriving Inhabited, DecidableEq

/-- A raw CSV table: which columns are present, plus the rows. -/
structure RawTable where
  hasDays : Bool
  hasDaily : Bool
  hasEvent : Bool
  hasTier : Bool
  hasGiveaway : Bool
  hasDow : Bool
  rows : List RawRow
deriving Inhabited

/-- A row after coercion, default-filling and row dropping. -/
structure PreRow where
  event : String
  days : ℚ
  daily : ℚ
  tier : String
  giveaway : String
  day_of_sale : String
deriving Inhabited, DecidableEq

/-- A fully cleaned row with the derived per-event columns. -/
structure CleanRow where
  event : String
  days : ℚ
  daily : ℚ
  tier : String
  giveaway : String
  day_of_sale : String
  cum_tickets : ℚ
  total_tickets : ℚ
  cum_share : ℚ
  event_sales_window : ℚ
  sales_window_group : String
deriving Inhabited, DecidableEq

/-- The cohort bucket function (source lines 126-133).  The NaN branch of
the source cannot fire here: the window is a maximum of days values that
survived dropna. -/
def bucket (win : ℚ) : String :=
  if win ≤ 30 then "Short (1–30)"
  else if win ≤ 90 then "Medium (31–90)"
  else "Long (91–150+)"

/-- Row coercion: drop the row if either required field is NaN (dropna),
synthesize the event id from the original row index when the event_name
column is absent (source lines 90-91), and fill per-cell categorical NaN
with the documented defaults (source lines 94-96). -/
def toPre (t : RawTable) (p : ℕ × RawRow) : Option PreRow :=
  match p.2.days, p.2.daily with
  | some d, some dt =>
    some { event := if t.hasEvent then p.2.event else "Event_" ++ toString p.1,
           days := d, daily := dt,
           tier := p.2.tier.getD "Unknown",
           giveaway := p.2.giveaway.getD "None",
           day_of_sale := p.2.day_of_sale.getD "Unknown" }
  | _, _ => none

/-- dropna + the two non-negativity filters (source lines 99-101). -/
def validRows (t : RawTable) : List PreRow :=
  ((t.rows.enum.filterMap (toPre t)).filter fun r =>
    decide (0 ≤ r.daily)).filter fun r => decide (0 ≤ r.days)

/-- The sort key of `df.sort_values(["event_name", "days_since_onsale"])`:
lexicographic on (event, days), with event names compared as their
code-point sequences exactly as Python compares str values. -/
def rowLE (r s : PreRow) : Prop :=
  r.event.data < s.event.data ∨ (r.event = s.event ∧ r.days ≤ s.days)

instance : DecidableRel rowLE := fun r s =>
  inferInstanceAs (Decidable (r.event.data < s.event.data ∨
    (r.event = s.event ∧ r.days ≤ s.days)))

lemma string_data_lt_iff (a b : String) : a.data < b.data ↔ a < b :=
  Iff.symm String.lt_iff_toList_lt

instance : IsTotal PreRow rowLE where
  total r s := by
    rcases lt_trichotomy r.event s.event with h | h | h
    · exact Or.inl (Or.inl ((string_data_lt_iff _ _).mpr h))
    · rcases le_total r.days s.days with hd | hd
      · exact Or.inl (Or.inr ⟨h, hd⟩)
      · exact Or.inr (Or.inr ⟨h.symm, hd⟩)
    · exact Or.inr (Or.inl ((string_data_lt_iff _ _).mpr h))

instance : IsTrans PreRow rowLE where
  trans r s u hrs hsu := by
    rcases hrs with h1 | ⟨h1, d1⟩
    · rcases hsu with h2 | ⟨h2, d2⟩
      · exact Or.inl ((string_data_lt_iff _ _).mpr
          (lt_trans ((string_data_lt_iff _ _).mp h1)
            ((string_data_lt_iff _ _).mp h2)))
      · exact Or.inl (h2 ▸ h1)
    · rcases hsu with h2 | ⟨h2, d2⟩
      · exact Or.inl (h1 ▸ h2)
      · exact Or.inr ⟨h1.trans h2, le_trans d1 d2⟩

/-- `df.sort_values(["event_name", "days_since_onsale"])`. -/
def sortRows (l : List PreRow) : List PreRow := List.insertionSort rowLE l

/-- Per-event total: `groupby("event_name")["daily_tickets"].transform("sum")`. -/
def sumDaily (l : List PreRow) (ev : String) : ℚ :=
  ((l.filter fun r => r.event = ev).map fun r => r.daily).sum

/-- Per-event running sum at position i of the sorted frame:
`groupby("event_name")["daily_tickets"].cumsum()`. -/
def cumDaily (l : List PreRow) (i : ℕ) (ev : String) : ℚ :=
  (((l.take (i + 1)).filter fun r => r.event = ev).map fun r => r.daily).sum

/-- Per-event sales window: `groupby("event_name")["days_since_onsale"].max()`,
merged back onto each row. -/
def windowFor (l : List PreRow) (ev : String) (seed : ℚ) : ℚ :=
  ((l.filter fun r => r.event = ev).map fun r => r.days).foldr max seed

/-- The derived columns of row i of the sorted frame (source lines
106-135): cum_share = np.where(total > 0, cum/total, 0) clipped to [0,1]. -/
def mkCleanRow (l : List PreRow) (i : ℕ) : CleanRow :=
  let r := l.getD i default
  let cum := cumDaily l i r.event
  let total := sumDaily l r.event
  let win := windowFor l r.event r.days
  { event := r.event, days := r.days, daily := r.daily, tier := r.tier,
    giveaway := r.giveaway, day_of_sale := r.day_of_sale,
    cum_tickets := cum, total_tickets := total,
    cum_share := clip (if 0 < total then cum / total else 0) 0 1,
    event_sales_window := win, sales_window_group := bucket win }

def addDerived (l : List PreRow) : List CleanRow :=
  (List.range l.length).map (mkCleanRow l)

/-- `load_data` (source lines 70-140), returning the (result, error) pair.
The input is `none` when the CSV file does not exist.

When an optional categorical column is absent, `df.get(col, default)`
returns the plain default string, and calling `.fillna` on a str raises
AttributeError, which the enclosing try/except converts into an error
return; the message below abbreviates the Python str(e) text. -/
def load_data (input : Option RawTable) :
    Option (List CleanRow) × Option String :=
  match input with
  | none => (none, some "File not found: Cavs Tickets.csv")
  | some t =>
    if t.hasDays && t.hasDaily then
      if t.hasTier && t.hasGiveaway && t.hasDow then
        if validRows t = [] then
          (none, some "No valid data rows after cleaning")
        else
          (some (addDerived (sortRows (validRows t))), none)
      else
        (none, some
          "Error loading data: AttributeError: str object has no attribute fillna")
    else
      (none, some ("Missing required columns: " ++ String.intercalate ", "
        ((if t.hasDays then [] else ["days_since_onsale"]) ++
         (if t.hasDaily then [] else ["daily_tickets"]))))

/-- A table with both required numeric columns and valid rows, but with
the optional tier column absent. -/
def missingTierTable : RawTable :=
  { hasDays := true, hasDaily := true, hasEvent := false, hasTier := false,
    hasGiveaway := true, hasDow := true,
    rows := [{ event := "", days := some 0, daily := some 5, tier := none,
               giveaway := none, day_of_sale := none }] }

/-- C1 failing input: on a well-formed table whose optional `tier` column
is absent, load_data returns an error instead of filling the default
"Unknown" and producing a cleaned result: `df.get("tier", "Unknown")`
yields the plain string "Unknown", and `.fillna` on a str raises
AttributeError, which the try/except turns into an error return. -/
theorem load_data_absent_optional_column_error :
    load_data (some missingTierTable) =
      (none, some
        "Error loading data: AttributeError: str object has no attribute fillna") :=
  rfl

lemma append_ne_empty_of_left (a b : String) (h : a.length ≠ 0) :
    a ++ b ≠ "" := by
  intro hc
  have hlen := congrArg String.length hc
  rw [String.length_append] at hlen
  simp only [String.length_empty] at hlen
  omega

/-- C10: load_data is total and returns exactly one of result and error:
either a cleaned result with no error, or no result with a non-empty
error message. -/
theorem load_data_result_xor (input : Option RawTable) :
    (∃ rows, load_data input = (some rows, none)) ∨
    (∃ msg, load_data input = (none, some msg) ∧ msg ≠ "") := by
  match input with
  | none => exact Or.inr ⟨_, rfl, by decide⟩
  | some t =>
    simp only [load_data]
    by_cases h1 : (t.hasDays && t.hasDaily) = true
    · rw [if_pos h1]
      by_cases h2 : (t.hasTier && t.hasGiveaway && t.hasDow) = true
      · rw [if_pos h2]
        by_cases h3 : validRows t = []
        · rw [if_pos h3]
          exact Or.inr ⟨_, rfl, by decide⟩
        · rw [if_neg h3]
          exact Or.inl ⟨_, rfl⟩
      · rw [if_neg h2]
        exact Or.inr ⟨_, rfl, by decide⟩
    · rw [if_neg h1]
      exact Or.inr ⟨_, rfl, append_ne_empty_of_left _ _ (by decide)⟩

lemma addDerived_length (l : List PreRow) :
    (addDerived l).length = l.length := by
  simp [addDerived]

lemma addDerived_getD (l : List PreRow) (i : ℕ) (hi : i < l.length) :
    (addDerived l).getD i default = mkCleanRow l i := by
  have hlen : i < (addDerived l).length := by
    rw [addDerived_length]
    exact hi
  rw [List.getD_eq_getElem _ _ hlen]
  simp [addDerived]

lemma mem_addDerived {l : List PreRow} {r : CleanRow} (hr : r ∈ addDerived l) :
    ∃ i, i < l.length ∧ r = mkCleanRow l i := by
  simp only [addDerived, List.mem_map, List.mem_range] at hr
  obtain ⟨i, hi, hri⟩ := hr
  exact ⟨i, hi, hri.symm⟩

lemma mem_validRows_nonneg (t : RawTable) {r : PreRow} (hr : r ∈ validRows t) :
    0 ≤ r.daily ∧ 0 ≤ r.days := by
  simp only [validRows, List.mem_filter, decide_eq_true_eq] at hr
  exact ⟨hr.1.2, hr.2⟩

lemma clip01_bounds (v : ℚ) : 0 ≤ clip v 0 1 ∧ clip v 0 1 ≤ 1 :=
  ⟨le_min (le_max_right v 0) zero_le_one, min_le_right _ _⟩

lemma cumDaily_mono (l : List PreRow) (hnn : ∀ r ∈ l, 0 ≤ r.daily)
    (i j : ℕ) (hij : i ≤ j) (ev : String) :
    cumDaily l i ev ≤ cumDaily l j ev := by
  unfold cumDaily
  have hsplit : l.take (j + 1) =
      l.take (i + 1) ++ (l.drop (i + 1)).take (j - i) := by
    rw [← List.take_add]
    congr 1
    omega
  rw [hsplit, List.filter_append, List.map_append, List.sum_append]
  have h2 : (0 : ℚ) ≤ ((((l.drop (i + 1)).take (j - i)).filter fun r =>
      r.event = ev).map fun r => r.daily).sum := by
    apply List.sum_nonneg
    intro x hx
    obtain ⟨r, hr, rfl⟩ := List.mem_map.mp hx
    exact hnn r (List.mem_of_mem_drop (List.mem_of_mem_take
      (List.mem_filter.mp hr).1))
  linarith

lemma cumDaily_last (l : List PreRow) (i : ℕ) (hi : i < l.length)
    (hlast : ∀ j, j < l.length → i < j →
      ¬(l.getD j default).event = (l.getD i default).event) :
    cumDaily l i (l.getD i default).event =
    sumDaily l (l.getD i default).event := by
  unfold cumDaily sumDaily
  generalize hev : (l.getD i default).event = ev at hlast ⊢
  suffices h : (l.take (i + 1)).filter (fun r => r.event = ev) =
      l.filter fun r => r.event = ev by
    rw [h]
  conv_rhs => rw [← List.take_append_drop (i + 1) l]
  rw [List.filter_append]
  have hnil : ((l.drop (i + 1)).filter fun r => r.event = ev) = [] := by
    rw [List.filter_eq_nil_iff]
    intro a ha
    obtain ⟨k, hk, hak⟩ := List.mem_iff_getElem.mp ha
    have hk' : i + 1 + k < l.length := by
      simp only [List.length_drop] at hk
      omega
    have haval : a = l[i + 1 + k] := by
      rw [← hak, List.getElem_drop]
    have hj := hlast (i + 1 + k) hk' (by omega)
    rw [List.getD_eq_getElem _ _ hk'] at hj
    rw [haval]
    simpa using hj
  rw [hnil, List.append_nil]

lemma load_data_some {input : Option RawTable} {rows : List CleanRow}
    (h : (load_data input).1 = some rows) :
    ∃ t : RawTable, rows = addDerived (sortRows (validRows t)) := by
  match input with
  | none => simp [load_data] at h
  | some t =>
    refine ⟨t, ?_⟩
    simp only [load_data] at h
    by_cases h1 : (t.hasDays && t.hasDaily) = true
    · rw [if_pos h1] at h
      by_cases h2 : (t.hasTier && t.hasGiveaway && t.hasDow) = true
      · rw [if_pos h2] at h
        by_cases h3 : validRows t = []
        · rw [if_pos h3] at h
          simp at h
        · rw [if_neg h3] at h
          simp only [Prod.fst] at h
          exact (Option.some_inj.mp h).symm
      · rw [if_neg h2] at h
        simp at h
    · rw [if_neg h1] at h
      simp at h

/-- C7: in a successfully cleaned dataset, within each event the rows are
ordered by day and the cumulative share is non-decreasing; every share
lies in [0, 1]; the last row of an event with positive total has share
exactly 1; and every row of a zero-total event has share 0. -/
theorem load_data_cum_share_props (input : Option RawTable)
    (rows : List CleanRow) (h : (load_data input).1 = some rows) :
    (∀ i j : ℕ, i ≤ j → j < rows.length →
      (rows.getD i default).event = (rows.getD j default).event →
      (rows.getD i default).days ≤ (rows.getD j default).days ∧
      (rows.getD i default).cum_share ≤ (rows.getD j default).cum_share) ∧
    (∀ r ∈ rows, 0 ≤ r.cum_share ∧ r.cum_share ≤ 1) ∧
    (∀ i : ℕ, i < rows.length →
      (∀ j : ℕ, j < rows.length → i < j →
        (rows.getD j default).event ≠ (rows.getD i default).event) →
      0 < (rows.getD i default).total_tickets →
      (rows.getD i default).cum_share = 1) ∧
    (∀ r ∈ rows, r.total_tickets = 0 → r.cum_share = 0) := by
  obtain ⟨t, rfl⟩ := load_data_some h
  have hsort : List.Sorted rowLE (sortRows (validRows t)) :=
    List.sorted_insertionSort _ _
  have hperm : (sortRows (validRows t)).Perm (validRows t) :=
    List.perm_insertionSort _ _
  have hnn : ∀ r ∈ sortRows (validRows t), 0 ≤ r.daily := fun r hr =>
    (mem_validRows_nonneg t (hperm.mem_iff.mp hr)).1
  have hlen := addDerived_length (sortRows (validRows t))
  refine ⟨?_, ?_, ?_, ?_⟩
  · intro i j hij hjlen hev
    have hjl : j < (sortRows (validRows t)).length := by rwa [hlen] at hjlen
    have hil : i < (sortRows (validRows t)).length := lt_of_le_of_lt hij hjl
    rw [addDerived_getD _ i hil, addDerived_getD _ j hjl] at hev ⊢
    simp only [mkCleanRow] at hev ⊢
    rcases eq_or_lt_of_le hij with rfl | hij'
    · exact ⟨le_refl _, le_refl _⟩
    · have hpair := (List.pairwise_iff_getElem.mp hsort) i j hil hjl hij'
      rw [← List.getD_eq_getElem _ default hil,
        ← List.getD_eq_getElem _ default hjl] at hpair
      have hdays : ((sortRows (validRows t)).getD i default).days ≤
          ((sortRows (validRows t)).getD j default).days := by
        rcases hpair with hlt | ⟨heq, hle⟩
        · exact absurd (hev ▸ hlt) (lt_irrefl _)
        · exact hle
      refine ⟨hdays, ?_⟩
      have hcum := cumDaily_mono (sortRows (validRows t)) hnn i j
        (le_of_lt hij') ((sortRows (validRows t)).getD i default).event
      rw [← hev]
      by_cases hT : 0 < sumDaily (sortRows (validRows t))
          ((sortRows (validRows t)).getD i default).event
      · rw [if_pos hT, if_pos hT]
        exact clip_mono _ _ (div_le_div_of_nonneg_right hcum (le_of_lt hT))
      · rw [if_neg hT, if_neg hT]
  · intro r hr
    obtain ⟨i, hi, rfl⟩ := mem_addDerived hr
    exact clip01_bounds _
  · intro i hilen hlast htot
    have hil : i < (sortRows (validRows t)).length := by rwa [hlen] at hilen
    rw [addDerived_getD _ i hil] at htot ⊢
    have hlast' : ∀ j, j < (sortRows (validRows t)).length → i < j →
        ¬((sortRows (validRows t)).getD j default).event =
          ((sortRows (validRows t)).getD i default).event := by
      intro j hj hij
      have hj' := hlast j (by rwa [hlen]) hij
      rw [addDerived_getD _ j hj, addDerived_getD _ i hil] at hj'
      simpa [mkCleanRow] using hj'
    simp only [mkCleanRow] at htot ⊢
    have hceq := cumDaily_last (sortRows (validRows t)) i hil hlast'
    rw [if_pos htot, hceq, div_self (ne_of_gt htot)]
    norm_num [clip]
  · intro r hr htot
    obtain ⟨i, hi, rfl⟩ := mem_addDerived hr
    simp only [mkCleanRow] at htot ⊢
    rw [htot]
    norm_num [clip]

/-- A concrete well-formed table: one event "A" with two daily rows. -/
def exTable : RawTable :=
  { hasDays := true, hasDaily := true, hasEvent := true, hasTier := true,
    hasGiveaway := true, hasDow := true,
    rows := [{ event := "A", days := some 1, daily := some 3, tier := none,
               giveaway := none, day_of_sale := none },
             { event := "A", days := some 0, daily := some 1,
               tier := some "B", giveaway := some "T-Shirt",
               day_of_sale := some "Friday" }] }

/-- The cleaned output of load_data on the concrete table. -/
def cleanEx : List CleanRow := ((load_data (some exTable)).1).getD []

/-- Witness for C7 on the concrete table: shares are ordered along days,
bounded by [0,1], and the last row of the event has share exactly 1. -/
theorem load_data_cum_share_props_witness :
    ((cleanEx.getD 0 default).days ≤ (cleanEx.getD 1 default).days ∧
     (cleanEx.getD 0 default).cum_share ≤ (cleanEx.getD 1 default).cum_share) ∧
    (0 ≤ (cleanEx.getD 0 default).cum_share ∧
     (cleanEx.getD 0 default).cum_share ≤ 1) ∧
    (cleanEx.getD 1 default).cum_share = 1 := by
  have h : (load_data (some exTable)).1 = some cleanEx := rfl
  have H := load_data_cum_share_props (some exTable) cleanEx h
  refine ⟨H.1 0 1 (by norm_num) (by decide) (by decide), ?_, ?_⟩
  · have h0 : (0 : ℕ) < cleanEx.length := by decide
    have hmem : cleanEx.getD 0 default ∈ cleanEx := by
      rw [List.getD_eq_getElem _ _ h0]
      exact List.getElem_mem h0
    exact H.2.1 _ hmem
  · have htot : 0 < (cleanEx.getD 1 default).total_tickets := by
      have hval : (cleanEx.getD 1 default).total_tickets =
          [(1 : ℚ), 3].sum := rfl
      rw [hval]
      norm_num
    exact H.2.2.1 1 (by decide) (by decide) htot

/-- One row of the pacing frame: (cohort, day) with the three share
percentiles. -/
structure PacingRow where
  sales_window_group : String
  days_since_onsale : ℚ
  p25 : ℚ
  median : ℚ
  p75 : ℚ
deriving Inhabited, DecidableEq

/-- pandas quantile with the default "linear" interpolation, on an
already-sorted sample: the value at fractional index q * (n - 1). -/
def quantileSorted (s : List ℚ) (q : ℚ) : ℚ :=
  match s with
  | [] => 0
  | _ :: _ =>
    let n := s.length
    let h := q * ((n : ℚ) - 1)
    let i := (⌊h⌋).toNat
    if i + 1 < n then
      s.getD i 0 + (h - (i : ℚ)) * (s.getD (i + 1) 0 - s.getD i 0)
    else s.getD (n - 1) 0

/-- `Series.quantile(q)`: sort the sample, then interpolate. -/
def quantile (l : List ℚ) (q : ℚ) : ℚ :=
  quantileSorted (l.insertionSort (· ≤ ·)) q

/-- The sort key of the groupby / sort_values on
(sales_window_group, days_since_onsale). -/
def keyLE (a b : String × ℚ) : Prop :=
  a.1.data < b.1.data ∨ (a.1 = b.1 ∧ a.2 ≤ b.2)

instance : DecidableRel keyLE := fun a b =>
  inferInstanceAs (Decidable (a.1.data < b.1.data ∨ (a.1 = b.1 ∧ a.2 ≤ b.2)))

instance : IsTotal (String × ℚ) keyLE where
  total a b := by
    rcases lt_trichotomy a.1 b.1 with h | h | h
    · exact Or.inl (Or.inl ((string_data_lt_iff _ _).mpr h))
    · rcases le_total a.2 b.2 with hd | hd
      · exact Or.inl (Or.inr ⟨h, hd⟩)
      · exact Or.inr (Or.inr ⟨h.symm, hd⟩)
    · exact Or.inr (Or.inl ((string_data_lt_iff _ _).mpr h))

instance : IsTrans (String × ℚ) keyLE where
  trans a b c hab hbc := by
    rcases hab with h1 | ⟨h1, d1⟩
    · rcases hbc with h2 | ⟨h2, d2⟩
      · exact Or.inl ((string_data_lt_iff _ _).mpr
          (lt_trans ((string_data_lt_iff _ _).mp h1)
            ((string_data_lt_iff _ _).mp h2)))
      · exact Or.inl (h2 ▸ h1)
    · rcases hbc with h2 | ⟨h2, d2⟩
      · exact Or.inl (h1 ▸ h2)
      · exact Or.inr ⟨h1.trans h2, le_trans d1 d2⟩

/-- The distinct (cohort, day) group keys, sorted ascending — pandas
groupby(sort=True) followed by sort_values. -/
def pacingKeys (rows : List CleanRow) : List (String × ℚ) :=
  ((rows.map fun r => (r.sales_window_group, r.days)).dedup).insertionSort keyLE

/-- The cum_share sample of one (cohort, day) group. -/
def groupShares (rows : List CleanRow) (k : String × ℚ) : List ℚ :=
  (rows.filter fun r => r.sales_window_group = k.1 ∧ r.days = k.2).map
    fun r => r.cum_share

/-- One row of the raw pacing frame (source lines 191-197).  The
subsequent dropna(subset=["median"]) drops nothing here: every group key
comes from an actual row, so its sample is non-empty and its median is
defined. -/
def mkPacingRow (rows : List CleanRow) (k : String × ℚ) : PacingRow :=
  { sales_window_group := k.1, days_since_onsale := k.2,
    p25 := quantile (groupShares rows k) (1/4),
    median := quantile (groupShares rows k) (1/2),
    p75 := quantile (groupShares rows k) (3/4) }

def rawPacing (rows : List CleanRow) : List PacingRow :=
  (pacingKeys rows).map (mkPacingRow rows)

/-- The per-cohort running maximum of a column up to and including row i
(the cummax smoothing of source lines 204-207). -/
def prefMax (l : List PacingRow) (i : ℕ) (f : PacingRow → ℚ) : ℚ :=
  (((l.take (i + 1)).filter fun p =>
    p.sales_window_group = (l.getD i default).sales_window_group).map f).foldr
    max (f (l.getD i default))

/-- Row i after the cummax smoothing of the three percentile columns. -/
def smoothRow (l : List PacingRow) (i : ℕ) : PacingRow :=
  { l.getD i default with
    p25 := prefMax l i fun p => p.p25,
    median := prefMax l i fun p => p.median,
    p75 := prefMax l i fun p => p.p75 }

/-- `precompute_pacing` (source lines 189-209): group, take percentiles,
sort, then enforce monotonicity with a per-cohort running maximum. -/
def precompute_pacing (rows : List CleanRow) : List PacingRow :=
  (List.range (rawPacing rows).length).map (smoothRow (rawPacing rows))

lemma sorted_getD_mono (s : List ℚ) (hs : List.Sorted (· ≤ ·) s) {a b : ℕ}
    (hab : a ≤ b) (hb : b < s.length) : s.getD a 0 ≤ s.getD b 0 := by
  rcases eq_or_lt_of_le hab with rfl | h
  · exact le_refl _
  · have ha : a < s.length := lt_trans h hb
    rw [List.getD_eq_getElem _ _ ha, List.getD_eq_getElem _ _ hb]
    exact List.pairwise_iff_getElem.mp hs a b ha hb h

lemma quantileSorted_mono (s : List ℚ) (hs : List.Sorted (· ≤ ·) s)
    {q1 q2 : ℚ} (h0 : 0 ≤ q1) (h12 : q1 ≤ q2) (h1 : q2 ≤ 1) :
    quantileSorted s q1 ≤ quantileSorted s q2 := by
  match s with
  | [] => simp [quantileSorted]
  | x :: xs =>
    simp only [quantileSorted]
    have hn1 : 1 ≤ (x :: xs).length := by simp
    have hcast : (0 : ℚ) ≤ ((x :: xs).length : ℚ) - 1 := by
      have : (1 : ℚ) ≤ ((x :: xs).length : ℚ) := by exact_mod_cast hn1
      linarith
    have hh0 : 0 ≤ q1 * (((x :: xs).length : ℚ) - 1) := mul_nonneg h0 hcast
    have hh0' : 0 ≤ q2 * (((x :: xs).length : ℚ) - 1) :=
      mul_nonneg (le_trans h0 h12) hcast
    have hh12 : q1 * (((x :: xs).length : ℚ) - 1) ≤
        q2 * (((x :: xs).length : ℚ) - 1) :=
      mul_le_mul_of_nonneg_right h12 hcast
    have hh2top : q2 * (((x :: xs).length : ℚ) - 1) ≤
        ((x :: xs).length : ℚ) - 1 := by
      calc q2 * (((x :: xs).length : ℚ) - 1) ≤
          1 * (((x :: xs).length : ℚ) - 1) :=
            mul_le_mul_of_nonneg_right h1 hcast
        _ = ((x :: xs).length : ℚ) - 1 := one_mul _
    have hI1 : (0 : ℤ) ≤ ⌊q1 * (((x :: xs).length : ℚ) - 1)⌋ :=
      Int.floor_nonneg.mpr hh0
    have hI2 : (0 : ℤ) ≤ ⌊q2 * (((x :: xs).length : ℚ) - 1)⌋ :=
      Int.floor_nonneg.mpr hh0'
    have hIle : ⌊q1 * (((x :: xs).length : ℚ) - 1)⌋ ≤
        ⌊q2 * (((x :: xs).length : ℚ) - 1)⌋ := Int.floor_le_floor hh12
    have hItop : ⌊q2 * (((x :: xs).length : ℚ) - 1)⌋ ≤
        ((x :: xs).length : ℤ) - 1 := by
      have h' := Int.floor_le_floor hh2top
      have hfe : ⌊(((x :: xs).length : ℚ) - 1)⌋ =
          ((x :: xs).length : ℤ) - 1 := by
        rw [show (((x :: xs).length : ℚ) - 1) =
          (((x :: xs).length : ℚ) - ((1 : ℤ) : ℚ)) by norm_num,
          Int.floor_sub_int, Int.floor_natCast]
      exact le_trans h' (le_of_eq hfe)
    have hc1 : ((⌊q1 * (((x :: xs).length : ℚ) - 1)⌋.toNat : ℕ) : ℚ) =
        ((⌊q1 * (((x :: xs).length : ℚ) - 1)⌋ : ℤ) : ℚ) := by
      exact_mod_cast congrArg (fun z : ℤ => (z : ℚ))
        (Int.toNat_of_nonneg hI1)
    have hc2 : ((⌊q2 * (((x :: xs).length : ℚ) - 1)⌋.toNat : ℕ) : ℚ) =
        ((⌊q2 * (((x :: xs).length : ℚ) - 1)⌋ : ℤ) : ℚ) := by
      exact_mod_cast congrArg (fun z : ℤ => (z : ℚ))
        (Int.toNat_of_nonneg hI2)
    have hfl1 : ((⌊q1 * (((x :: xs).length : ℚ) - 1)⌋.toNat : ℕ) : ℚ) ≤
        q1 * (((x :: xs).length : ℚ) - 1) := by
      rw [hc1]
      exact Int.floor_le _
    have hlt1 : q1 * (((x :: xs).length : ℚ) - 1) <
        ((⌊q1 * (((x :: xs).length : ℚ) - 1)⌋.toNat : ℕ) : ℚ) + 1 := by
      rw [hc1]
      exact Int.lt_floor_add_one _
    have hfl2 : ((⌊q2 * (((x :: xs).length : ℚ) - 1)⌋.toNat : ℕ) : ℚ) ≤
        q2 * (((x :: xs).length : ℚ) - 1) := by
      rw [hc2]
      exact Int.floor_le _
    have htople : ⌊q1 * (((x :: xs).length : ℚ) - 1)⌋.toNat ≤
        ⌊q2 * (((x :: xs).length : ℚ) - 1)⌋.toNat := by omega
    have hi2n : ⌊q2 * (((x :: xs).length : ℚ) - 1)⌋.toNat ≤
        (x :: xs).length - 1 := by omega
    rcases eq_or_lt_of_le htople with heq | hltn
    · rw [← heq]
      by_cases hbr : ⌊q1 * (((x :: xs).length : ℚ) - 1)⌋.toNat + 1 <
          (x :: xs).length
      · rw [if_pos hbr, if_pos hbr]
        have hvw : (x :: xs).getD
            (⌊q1 * (((x :: xs).length : ℚ) - 1)⌋.toNat) 0 ≤
            (x :: xs).getD
            (⌊q1 * (((x :: xs).length : ℚ) - 1)⌋.toNat + 1) 0 :=
          sorted_getD_mono _ hs (by omega) hbr
        have hkey := mul_le_mul_of_nonneg_right
          (sub_le_sub_right hh12
            ((⌊q1 * (((x :: xs).length : ℚ) - 1)⌋.toNat : ℚ)))
          (by linarith : (0 : ℚ) ≤ (x :: xs).getD
            (⌊q1 * (((x :: xs).length : ℚ) - 1)⌋.toNat + 1) 0 -
            (x :: xs).getD (⌊q1 * (((x :: xs).length : ℚ) - 1)⌋.toNat) 0)
        rw [← heq] at hc2 hfl2
        linarith
      · rw [if_neg hbr, if_neg hbr]
    · have hbr1 : ⌊q1 * (((x :: xs).length : ℚ) - 1)⌋.toNat + 1 <
          (x :: xs).length := by omega
      rw [if_pos hbr1]
      have hvw1 : (x :: xs).getD
          (⌊q1 * (((x :: xs).length : ℚ) - 1)⌋.toNat) 0 ≤
          (x :: xs).getD
          (⌊q1 * (((x :: xs).length : ℚ) - 1)⌋.toNat + 1) 0 :=
        sorted_getD_mono _ hs (by omega) hbr1
      have hub : (x :: xs).getD
          (⌊q1 * (((x :: xs).length : ℚ) - 1)⌋.toNat) 0 +
          (q1 * (((x :: xs).length : ℚ) - 1) -
            ((⌊q1 * (((x :: xs).length : ℚ) - 1)⌋.toNat : ℕ) : ℚ)) *
          ((x :: xs).getD
            (⌊q1 * (((x :: xs).length : ℚ) - 1)⌋.toNat + 1) 0 -
           (x :: xs).getD
            (⌊q1 * (((x :: xs).length : ℚ) - 1)⌋.toNat) 0) ≤
          (x :: xs).getD
            (⌊q1 * (((x :: xs).length : ℚ) - 1)⌋.toNat + 1) 0 := by
        have hg1 : q1 * (((x :: xs).length : ℚ) - 1) -
            ((⌊q1 * (((x :: xs).length : ℚ) - 1)⌋.toNat : ℕ) : ℚ) ≤ 1 := by
          linarith
        have := mul_le_mul_of_nonneg_right hg1 (by linarith :
          (0 : ℚ) ≤ (x :: xs).getD
            (⌊q1 * (((x :: xs).length : ℚ) - 1)⌋.toNat + 1) 0 -
          (x :: xs).getD (⌊q1 * (((x :: xs).length : ℚ) - 1)⌋.toNat) 0)
        linarith
      have hmid : (x :: xs).getD
          (⌊q1 * (((x :: xs).length : ℚ) - 1)⌋.toNat + 1) 0 ≤
          (x :: xs).getD (⌊q2 * (((x :: xs).length : ℚ) - 1)⌋.toNat) 0 :=
        sorted_getD_mono _ hs (by omega) (by omega)
      by_cases hbr2 : ⌊q2 * (((x :: xs).length : ℚ) - 1)⌋.toNat + 1 <
          (x :: xs).length
      · rw [if_pos hbr2]
        have hg2 : (0 : ℚ) ≤ q2 * (((x :: xs).length : ℚ) - 1) -
            ((⌊q2 * (((x :: xs).length : ℚ) - 1)⌋.toNat : ℕ) : ℚ) := by
          linarith
        have hvw2 : (x :: xs).getD
            (⌊q2 * (((x :: xs).length : ℚ) - 1)⌋.toNat) 0 ≤
            (x :: xs).getD
            (⌊q2 * (((x :: xs).length : ℚ) - 1)⌋.toNat + 1) 0 :=
          sorted_getD_mono _ hs (by omega) hbr2
        have := mul_nonneg hg2 (by linarith : (0 : ℚ) ≤
          (x :: xs).getD (⌊q2 * (((x :: xs).length : ℚ) - 1)⌋.toNat + 1) 0 -
          (x :: xs).getD (⌊q2 * (((x :: xs).length : ℚ) - 1)⌋.toNat) 0)
        linarith
      · rw [if_neg hbr2]
        have hi2eq : ⌊q2 * (((x :: xs).length : ℚ) - 1)⌋.toNat =
            (x :: xs).length - 1 := by omega
        rw [← hi2eq]
        linarith

lemma quantile_mono (l : List ℚ) {q1 q2 : ℚ} (h0 : 0 ≤ q1) (h12 : q1 ≤ q2)
    (h1 : q2 ≤ 1) : quantile l q1 ≤ quantile l q2 :=
  quantileSorted_mono _ (List.sorted_insertionSort _ l) h0 h12 h1

lemma foldr_max_le (xs : List ℚ) {a b : ℚ} (ha : a ≤ b)
    (hxs : ∀ x ∈ xs, x ≤ b) : xs.foldr max a ≤ b := by
  induction xs with
  | nil => exact ha
  | cons y ys ih =>
    exact max_le (hxs y (List.mem_cons_self _ _))
      (ih fun x hx => hxs x (List.mem_cons_of_mem _ hx))

lemma foldr_max_pointwise (S : List PacingRow) (f g : PacingRow → ℚ)
    (hfg : ∀ p ∈ S, f p ≤ g p) {a b : ℚ} (hab : a ≤ b) :
    (S.map f).foldr max a ≤ (S.map g).foldr max b := by
  induction S with
  | nil => exact hab
  | cons p S ih =>
    simp only [List.map_cons, List.foldr_cons]
    exact max_le_max (hfg p (List.mem_cons_self _ _))
      (ih fun q hq => hfg q (List.mem_cons_of_mem _ hq))

lemma rawPacing_length (rows : List CleanRow) :
    (rawPacing rows).length = (pacingKeys rows).length := by
  simp [rawPacing]

lemma rawPacing_getD (rows : List CleanRow) (i : ℕ)
    (hi : i < (pacingKeys rows).length) :
    (rawPacing rows).getD i default =
    mkPacingRow rows ((pacingKeys rows).getD i ("", 0)) := by
  have hlen : i < (rawPacing rows).length := by
    rw [rawPacing_length]
    exact hi
  rw [List.getD_eq_getElem _ _ hlen, List.getD_eq_getElem _ _ hi]
  simp [rawPacing]

lemma mem_rawPacing_ordered (rows : List CleanRow) {p : PacingRow}
    (hp : p ∈ rawPacing rows) : p.p25 ≤ p.median ∧ p.median ≤ p.p75 := by
  simp only [rawPacing, List.mem_map] at hp
  obtain ⟨k, _, rfl⟩ := hp
  exact ⟨quantile_mono _ (by norm_num) (by norm_num) (by norm_num),
         quantile_mono _ (by norm_num) (by norm_num) (by norm_num)⟩

lemma precompute_length (rows : List CleanRow) :
    (precompute_pacing rows).length = (rawPacing rows).length := by
  simp [precompute_pacing]

lemma precompute_getD (rows : List CleanRow) (i : ℕ)
    (hi : i < (rawPacing rows).length) :
    (precompute_pacing rows).getD i default =
    smoothRow (rawPacing rows) i := by
  have hlen : i < (precompute_pacing rows).length := by
    rw [precompute_length]
    exact hi
  rw [List.getD_eq_getElem _ _ hlen]
  simp [precompute_pacing]

lemma prefMax_mono (l : List PacingRow) (i j : ℕ) (hij : i ≤ j)
    (hj : j < l.length)
    (hg : (l.getD i default).sales_window_group =
      (l.getD j default).sales_window_group)
    (f : PacingRow → ℚ) : prefMax l i f ≤ prefMax l j f := by
  unfold prefMax
  rw [hg]
  apply foldr_max_le
  · apply mem_le_foldr_max
    apply List.mem_map_of_mem
    apply List.mem_filter.mpr
    refine ⟨?_, by exact decide_eq_true hg⟩
    have hi : i < l.length := lt_of_le_of_lt hij hj
    rw [List.getD_eq_getElem _ _ hi]
    refine List.mem_iff_getElem.mpr ⟨i, ?_, ?_⟩
    · simp only [List.length_take]
      omega
    · exact List.getElem_take ..
  · intro x hx
    obtain ⟨p, hp, rfl⟩ := List.mem_map.mp hx
    apply mem_le_foldr_max
    apply List.mem_map_of_mem
    have hp' := List.mem_filter.mp hp
    refine List.mem_filter.mpr ⟨?_, hp'.2⟩
    have hsplit : l.take (j + 1) =
        l.take (i + 1) ++ (l.drop (i + 1)).take (j - i) := by
      rw [← List.take_add]
      congr 1
      omega
    rw [hsplit]
    exact List.mem_append_left _ hp'.1

/-- C8: every row of the pacing frame after smoothing satisfies
p25 ≤ median ≤ p75. -/
theorem precompute_pacing_percentile_order (rows : List CleanRow) (i : ℕ)
    (hi : i < (precompute_pacing rows).length) :
    ((precompute_pacing rows).getD i default).p25 ≤
      ((precompute_pacing rows).getD i default).median ∧
    ((precompute_pacing rows).getD i default).median ≤
      ((precompute_pacing rows).getD i default).p75 := by
  have hi' : i < (rawPacing rows).length := by rwa [precompute_length] at hi
  rw [precompute_getD rows i hi']
  simp only [smoothRow, prefMax]
  have hmem : (rawPacing rows).getD i default ∈ rawPacing rows := by
    rw [List.getD_eq_getElem _ _ hi']
    exact List.getElem_mem _
  have hS : ∀ p ∈ ((rawPacing rows).take (i + 1)).filter
      (fun p => p.sales_window_group =
        ((rawPacing rows).getD i default).sales_window_group),
      p.p25 ≤ p.median ∧ p.median ≤ p.p75 := fun p hp =>
    mem_rawPacing_ordered rows
      (List.mem_of_mem_take (List.mem_filter.mp hp).1)
  exact ⟨foldr_max_pointwise _ _ _ (fun p hp => (hS p hp).1)
      (mem_rawPacing_ordered rows hmem).1,
    foldr_max_pointwise _ _ _ (fun p hp => (hS p hp).2)
      (mem_rawPacing_ordered rows hmem).2⟩

/-- C6: along the smoothed pacing frame, rows of the same cohort are
ordered by day, and each of p25, median, p75 is non-decreasing. -/
theorem precompute_pacing_monotone (rows : List CleanRow) (i j : ℕ)
    (hij : i ≤ j) (hj : j < (precompute_pacing rows).length)
    (hg : ((precompute_pacing rows).getD i default).sales_window_group =
      ((precompute_pacing rows).getD j default).sales_window_group) :
    ((precompute_pacing rows).getD i default).days_since_onsale ≤
      ((precompute_pacing rows).getD j default).days_since_onsale ∧
    ((precompute_pacing rows).getD i default).p25 ≤
      ((precompute_pacing rows).getD j default).p25 ∧
    ((precompute_pacing rows).getD i default).median ≤
      ((precompute_pacing rows).getD j default).median ∧
    ((precompute_pacing rows).getD i default).p75 ≤
      ((precompute_pacing rows).getD j default).p75 := by
  have hj' : j < (rawPacing rows).length := by rwa [precompute_length] at hj
  have hi' : i < (rawPacing rows).length := lt_of_le_of_lt hij hj'
  rw [precompute_getD rows i hi', precompute_getD rows j hj'] at hg ⊢
  simp only [smoothRow] at hg ⊢
  have hkj : j < (pacingKeys rows).length := by
    rwa [rawPacing_length] at hj'
  have hki : i < (pacingKeys rows).length := lt_of_le_of_lt hij hkj
  have hdays : ((rawPacing rows).getD i default).days_since_onsale ≤
      ((rawPacing rows).getD j default).days_since_onsale := by
    rw [rawPacing_getD rows i hki, rawPacing_getD rows j hkj] at hg ⊢
    simp only [mkPacingRow] at hg ⊢
    rcases eq_or_lt_of_le hij with rfl | hlt
    · exact le_refl _
    · have hsortk : List.Sorted keyLE (pacingKeys rows) :=
        List.sorted_insertionSort _ _
      have hpair := (List.pairwise_iff_getElem.mp hsortk) i j hki hkj hlt
      rw [← List.getD_eq_getElem _ ("", 0) hki,
        ← List.getD_eq_getElem _ ("", 0) hkj] at hpair
      rcases hpair with hlt' | ⟨_, hle⟩
      · have := (string_data_lt_iff _ _).mp hlt'
        rw [hg] at this
        exact absurd this (lt_irrefl _)
      · exact hle
  exact ⟨hdays,
    prefMax_mono _ i j hij hj' hg _,
    prefMax_mono _ i j hij hj' hg _,
    prefMax_mono _ i j hij hj' hg _⟩

/-- Concrete cleaned rows: one cohort, two days. -/
def exCleanRows : List CleanRow :=
  [{ event := "A", days := 0, daily := 1, tier := "B", giveaway := "None",
     day_of_sale := "Friday", cum_tickets := 1, total_tickets := 4,
     cum_share := 1/4, event_sales_window := 1,
     sales_window_group := "Short (1–30)" },
   { event := "A", days := 1, daily := 3, tier := "B", giveaway := "None",
     day_of_sale := "Friday", cum_tickets := 4, total_tickets := 4,
     cum_share := 1, event_sales_window := 1,
     sales_window_group := "Short (1–30)" }]

/-- Witness for C8 at the first row of the concrete pacing frame. -/
theorem precompute_pacing_percentile_order_witness :
    ((precompute_pacing exCleanRows).getD 0 default).p25 ≤
      ((precompute_pacing exCleanRows).getD 0 default).median ∧
    ((precompute_pacing exCleanRows).getD 0 default).median ≤
      ((precompute_pacing exCleanRows).getD 0 default).p75 :=
  precompute_pacing_percentile_order exCleanRows 0 (by decide)

/-- Witness for C6 at the two rows of the concrete pacing frame. -/
theorem precompute_pacing_monotone_witness :
    ((precompute_pacing exCleanRows).getD 0 default).days_since_onsale ≤
      ((precompute_pacing exCleanRows).getD 1 default).days_since_onsale ∧
    ((precompute_pacing exCleanRows).getD 0 default).p25 ≤
      ((precompute_pacing exCleanRows).getD 1 default).p25 ∧
    ((precompute_pacing exCleanRows).getD 0 default).median ≤
      ((precompute_pacing exCleanRows).getD 1 default).median ∧
    ((precompute_pacing exCleanRows).getD 0 default).p75 ≤
      ((precompute_pacing exCleanRows).getD 1 default).p75 :=
  precompute_pacing_monotone exCleanRows 0 1 (by norm_num) (by decide)
    (by decide)

end Cavs
